import Mathlib

/-!
Verification of the change-detection core of `src/lib/utils/Utils.ts`
(deep equality, deep merge, snapshot normalization `prepareEntity`,
snapshot diffing `diff`, and primary-key extraction `extractPK` /
`getCompositeKeyHash`).

The JavaScript runtime values handled by that module are shallowly
embedded as the inductive type `Value`.  Objects are ordered association
lists of enumerable own fields (JS insertion order); the non-enumerable
`__prepared` marker installed by `Object.defineProperty` is modelled as a
separate `Bool` flag on plain objects, and the prototype-level `__entity`
marker of entity instances is modelled by the dedicated `entity`
constructor.  Class membership (`instanceof ArrayCollection`,
`instanceof Reference`, `Date`/`RegExp`/`Buffer`, ObjectId) is modelled
by dedicated constructors; `entity.constructor.name` is `ctorNameO`.
JS numbers are modelled as `Int` (the claims under verification involve
no fractional or NaN arithmetic).  Operations that throw in JS
(a failed `MetadataStorage.get`, property access on `null`/`undefined`)
are `Option`-valued, `none` meaning an exception.
-/

namespace MikroOrm

/-- A JavaScript runtime value as used by `Utils.ts`. -/
inductive Value : Type where
  | undefined : Value
  | null : Value
  | bool : Bool → Value
  | num : Int → Value
  | str : String → Value
  | arr : List Value → Value
  | obj : Bool → List (String × Value) → Value
  | entity : String → List (String × Value) → Value
  | ref : Value → Value
  | collection : List Value → Value
  | objectId : String → Value
  | date : Int → Value
  | regexp : String → Value
  | buffer : List Nat → Value

/-- Lookup of an own enumerable field (JS property read, `undefined` when absent). -/
def lookupF : List (String × Value) → String → Value
  | [], _ => .undefined
  | (k, v) :: rest, key => if k = key then v else lookupF rest key

/-- Own-field existence test on a field list. -/
def hasKeyF : List (String × Value) → String → Bool
  | [], _ => false
  | (k, _) :: rest, key => k = key || hasKeyF rest key

/-- Enumerable own keys of a field list, in insertion order (`Object.keys`). -/
def keysF (fs : List (String × Value)) : List String :=
  fs.map Prod.fst

/-- JS property assignment `fs[key] = v`: replaces the value in place when the
key exists (keeping its position), appends otherwise. -/
def setF : List (String × Value) → String → Value → List (String × Value)
  | [], key, v => [(key, v)]
  | (k, w) :: rest, key, v =>
      if k = key then (k, v) :: rest else (k, w) :: setF rest key v

/-- Property read `value[key]`.  Modelled from the spec: a `Reference`
wrapper exposes the wrapped target's fields through getters (the real
wrapper defines getters for the target's primary-key fields, which are the
only keys `Utils.ts` ever reads off a wrapper), so `ref` delegates to its
target.  Reads on primitives yield `undefined`; the code under
verification never reads properties off `null`/`undefined`. -/
def getField : Value → String → Value
  | .obj _ fs, k => lookupF fs k
  | .entity _ fs, k => lookupF fs k
  | .ref t, k => getField t k
  | _, _ => .undefined

/-- The JS `in` operator restricted to the shapes the code applies it to
(`prop.name in entity` in `shouldIgnoreProperty`). -/
def hasField : Value → String → Bool
  | .obj _ fs, k => hasKeyF fs k
  | .entity _ fs, k => hasKeyF fs k
  | .ref t, k => hasField t k
  | _, _ => false

/-- Property assignment on a value (no-op on non-object shapes, which is
where the JS original would silently discard too, e.g. writing to a number). -/
def setField (t : Value) (k : String) (v : Value) : Value :=
  match t with
  | .obj p fs => .obj p (setF fs k v)
  | .entity n fs => .entity n (setF fs k v)
  | _ => t

/-- Enumerable own entries (`Object.entries` / `Object.keys` + reads).
The `__prepared` marker is the `Bool` flag of `obj`, hence never listed. -/
def entriesOf : Value → List (String × Value)
  | .obj _ fs => fs
  | .entity _ fs => fs
  | _ => []

/-- JS truthiness. -/
def truthy : Value → Bool
  | .undefined => false
  | .null => false
  | .bool b => b
  | .num n => n != 0
  | .str s => s != ""
  | _ => true

/-- Truthiness of an optional string attribute (`prop.inversedBy || prop.mappedBy`). -/
def truthyStrOpt : Option String → Bool
  | some s => s != ""
  | none => false

/-- `Utils.isObject` with no blacklist: a non-null non-array `typeof "object"` value. -/
def isObjectV : Value → Bool
  | .obj _ _ => true
  | .entity _ _ => true
  | .ref _ => true
  | .collection _ => true
  | .objectId _ => true
  | .date _ => true
  | .regexp _ => true
  | .buffer _ => true
  | _ => false

/-- `Utils.isObject(value, [Date, RegExp, Buffer])` as used by `Utils.merge`:
an object that is not one of the three opaque classes. -/
def isObjectNotOpaque (v : Value) : Bool :=
  match v with
  | .date _ => false
  | .regexp _ => false
  | .buffer _ => false
  | _ => isObjectV v

/-- `Array.isArray`. -/
def isArrayV : Value → Bool
  | .arr _ => true
  | _ => false

/-- `value.constructor.name`; `none` models the `TypeError` thrown on
`null`/`undefined`. -/
def ctorNameO : Value → Option String
  | .undefined => none
  | .null => none
  | .bool _ => some "Boolean"
  | .num _ => some "Number"
  | .str _ => some "String"
  | .arr _ => some "Array"
  | .obj _ _ => some "Object"
  | .entity n _ => some n
  | .ref _ => some "Reference"
  | .collection _ => some "Collection"
  | .objectId _ => some "ObjectId"
  | .date _ => some "Date"
  | .regexp _ => some "RegExp"
  | .buffer _ => some "Buffer"

/-- ASCII lowercasing of one character (`String.prototype.toLowerCase` on
the ASCII constructor names involved). -/
def lowerChar : Char → Char
  | 'A' => 'a' | 'B' => 'b' | 'C' => 'c' | 'D' => 'd' | 'E' => 'e' | 'F' => 'f'
  | 'G' => 'g' | 'H' => 'h' | 'I' => 'i' | 'J' => 'j' | 'K' => 'k' | 'L' => 'l'
  | 'M' => 'm' | 'N' => 'n' | 'O' => 'o' | 'P' => 'p' | 'Q' => 'q' | 'R' => 'r'
  | 'S' => 's' | 'T' => 't' | 'U' => 'u' | 'V' => 'v' | 'W' => 'w' | 'X' => 'x'
  | 'Y' => 'y' | 'Z' => 'z'
  | c => c

/-- ASCII lowercasing of a string. -/
def lowerStr (s : String) : String :=
  ⟨s.data.map lowerChar⟩

/-- `Utils.isObjectID`: an object whose constructor name lowercases to `objectid`. -/
def isObjectID (v : Value) : Bool :=
  isObjectV v && lowerStr ((ctorNameO v).getD "") = "objectid"

/-- `Utils.isPrimaryKey`: string, number or ObjectId. -/
def isPrimaryKeyV (v : Value) : Bool :=
  match v with
  | .str _ => true
  | .num _ => true
  | _ => isObjectID v

/-- `Utils.isReference`: `instanceof Reference`. -/
def isReferenceV : Value → Bool
  | .ref _ => true
  | _ => false

/-- `Utils.isEntity(data, allowReference)`: a `Reference` when allowed,
else an object carrying the `__entity` marker (modelled by the `entity`
constructor). -/
def isEntityV (v : Value) (allowReference : Bool) : Bool :=
  if allowReference && isReferenceV v then true
  else
    match v with
    | .entity _ _ => true
    | _ => false

/-- `instanceof ArrayCollection`. -/
def isCollectionV : Value → Bool
  | .collection _ => true
  | _ => false

/-- Truthiness of `value.__prepared`: the non-enumerable marker flag on a
plain object (or an enumerable field of that name, which a plain property
read would also see). -/
def preparedOf : Value → Bool
  | .obj p fs => p || truthy (lookupF fs "__prepared")
  | v => truthy (getField v "__prepared")

mutual

/-- Modelled from the spec: `Utils.equals` delegates to the external
`fast-deep-equal` package (DeepEquality, spec 4.1) — scalars by value,
arrays by length and order-sensitive pairwise recursion, plain objects by
key-count plus key-order-insensitive pairwise recursion on the first
object's keys, `Date` by time, `RegExp` by source, byte blobs by content;
values of different shapes are unequal.  Entity instances and plain
objects compare by their enumerable fields (the library does not compare
constructors); wrapper/collection instances compare structurally. -/
def equalsV : Value → Value → Bool
  | .undefined, .undefined => true
  | .null, .null => true
  | .bool a, .bool b => a == b
  | .num a, .num b => a == b
  | .str a, .str b => a == b
  | .arr xs, .arr ys => eqArr xs ys
  | .obj _ fs, .obj _ gs => (keysF fs).length == (keysF gs).length && eqFields fs gs
  | .obj _ fs, .entity _ gs => (keysF fs).length == (keysF gs).length && eqFields fs gs
  | .entity _ fs, .obj _ gs => (keysF fs).length == (keysF gs).length && eqFields fs gs
  | .entity _ fs, .entity _ gs => (keysF fs).length == (keysF gs).length && eqFields fs gs
  | .ref a, .ref b => equalsV a b
  | .collection xs, .collection ys => eqArr xs ys
  | .objectId a, .objectId b => a == b
  | .date a, .date b => a == b
  | .regexp a, .regexp b => a == b
  | .buffer a, .buffer b => a == b
  | _, _ => false

/-- Order-sensitive pairwise array equality. -/
def eqArr : List Value → List Value → Bool
  | [], [] => true
  | x :: xs, y :: ys => equalsV x y && eqArr xs ys
  | _, _ => false

/-- For every key of the first object: present in the second and recursively
equal (key-order-insensitive object comparison of `fast-deep-equal`). -/
def eqFields : List (String × Value) → List (String × Value) → Bool
  | [], _ => true
  | (k, v) :: rest, gs => hasKeyF gs k && equalsV v (lookupF gs k) && eqFields rest gs

end

/-- `Utils.copy` delegates to the external `clone` package (DeepClone,
spec 4.2): the copy has identical structure and leaf values, so on pure
values it is the identity (independence under mutation is not observable
in a pure embedding). -/
def copy (v : Value) : Value := v

mutual

/-- One round of `Utils.merge` for a single source: when both target and
source are objects, fold the source's enumerable entries into the target;
otherwise the target is returned untouched.  Sources whose shape is an
object without modelled enumerable fields (`Date` etc.) contribute no
entries. -/
def mergeInto (target source : Value) : Value :=
  match source with
  | .obj _ fs => if isObjectV target then mergeEntries target fs else target
  | .entity _ fs => if isObjectV target then mergeEntries target fs else target
  | _ => target

/-- The `Object.entries(source).forEach` body of `Utils.merge`: a plain
nested object value is merged recursively into the target's slot (created
as `{}` when the key is absent); any other value — arrays and the opaque
`Date`/`RegExp`/`Buffer` classes included — overwrites the slot wholesale.
The recursive call mutates the slot in place in JS, which on a non-object
slot silently does nothing; functionally this is an update of the slot
with the recursive result, which leaves a non-object slot unchanged. -/
def mergeEntries (target : Value) : List (String × Value) → Value
  | [] => target
  | (k, v) :: rest =>
      if isObjectNotOpaque v then
        let t1 := if hasField target k then target else setField target k (.obj false [])
        mergeEntries (setField t1 k (mergeInto (getField t1 k) v)) rest
      else
        mergeEntries (setField target k v) rest

end

/-- `Utils.merge(target, ...sources)`: processes the sources left to right,
returning the (functionally updated) target. -/
def merge (target : Value) (sources : List Value) : Value :=
  sources.foldl mergeInto target

/-- `Utils.diff(a, b)`: for each enumerable key of `b` in order, keep
`b[k]` unless `equals(a[k], b[k])`. -/
def diff (a b : Value) : Value :=
  .obj false ((entriesOf b).foldl
    (fun ret kv => if equalsV (getField a kv.1) kv.2 then ret else setF ret kv.1 kv.2) [])

/-- Reference kind of a property (`ReferenceType` enum). -/
inductive RefKind : Type where
  | scalar : RefKind
  | oneToOne : RefKind
  | manyToOne : RefKind
  | oneToMany : RefKind
  | manyToMany : RefKind
  deriving DecidableEq

/-- `EntityProperty` descriptor: the fields of the metadata descriptor read
by `Utils.ts`.  `customType.convertToDatabaseValue(value, platform)` is
modelled as an optional function on values with the platform argument
absorbed (quantifying over all codec functions covers all platforms). -/
structure EntityProperty : Type where
  name : String
  type : String
  reference : RefKind := .scalar
  owner : Bool := false
  inversedBy : Option String := none
  mappedBy : Option String := none
  primary : Bool := false
  persist : Option Bool := none
  customType : Option (Value → Value) := none

/-- `EntityMetadata` descriptor: the fields read by `Utils.ts`.
`properties` is in declaration order (`Object.values(meta.properties)`). -/
structure EntityMetadata : Type where
  primaryKey : String
  primaryKeys : List String := []
  serializedPrimaryKey : String := ""
  compositePK : Bool := false
  properties : List EntityProperty := []

/-- The metadata registry, a name-indexed store. -/
abbrev MetadataStorage : Type := List (String × EntityMetadata)

/-- `MetadataStorage.get(name)`; `none` models the error thrown on an
unknown entity type. -/
def MetadataStorage.get (reg : MetadataStorage) (name : String) : Option EntityMetadata :=
  (reg.find? (fun p => p.1 = name)).map Prod.snd

mutual

/-- String coercion applied by `Array.prototype.join` to each element:
`null`/`undefined` become the empty string, other values their JS string
form (numbers in decimal, arrays joined by commas, plain objects as
"[object Object]"; the exact strings of `Date` values are irrelevant to
the code under verification and fixed arbitrarily). -/
def joinSeg : Value → String
  | .undefined => ""
  | .null => ""
  | .bool b => if b then "true" else "false"
  | .num n => toString n
  | .str s => s
  | .arr xs => String.intercalate "," (joinSegList xs)
  | .obj _ _ => "[object Object]"
  | .entity _ _ => "[object Object]"
  | .ref _ => "[object Object]"
  | .collection _ => "[object Object]"
  | .objectId s => s
  | .date _ => "[object Date]"
  | .regexp s => s
  | .buffer bs => String.intercalate "," (bs.map (fun b => toString b))

/-- Element-wise `joinSeg` over an array. -/
def joinSegList : List Value → List String
  | [] => []
  | x :: xs => joinSeg x :: joinSegList xs

end

/-- One segment of `Utils.getCompositeKeyHash`: the mapped value of one
primary-key field — the serialized primary key of a referenced entity
(`wrap(entity[pk]).__serializedPrimaryKey`, an accessor on the entity
modelled as its `__serializedPrimaryKey` field; `wrap` is the identity on
entities), else the raw field value.  The segment string is the coercion
`Array.prototype.join` applies. -/
def compositeSeg (entity : Value) (pk : String) : String :=
  if isEntityV (getField entity pk) true then
    joinSeg (getField (getField entity pk) "__serializedPrimaryKey")
  else
    joinSeg (getField entity pk)

/-- `Utils.getCompositeKeyHash`: the per-key-field segments joined with
`~` in `meta.primaryKeys` order. -/
def getCompositeKeyHash (entity : Value) (meta : EntityMetadata) : String :=
  String.intercalate "~" (meta.primaryKeys.map (compositeSeg entity))

/-- `Utils.extractPK(data, meta?)`: primary-key-shaped data is returned
as-is; an entity given without metadata resolves its own metadata
(`wrap(data).__meta`, modelled from the spec as the registry descriptor of
the entity's declared type name); an object with metadata yields the
composite hash or `data[primaryKey] || data[serializedPrimaryKey] || null`;
anything else yields `null`. -/
def extractPK (reg : MetadataStorage) (data : Value) (meta0 : Option EntityMetadata) : Value :=
  if isPrimaryKeyV data then data
  else
    let meta1 : Option EntityMetadata :=
      if isEntityV data false && meta0.isNone then
        match ctorNameO data with
        | some cn => reg.get cn
        | none => none
      else meta0
    match meta1 with
    | some m =>
        if isObjectV data then
          if m.compositePK then .str (getCompositeKeyHash data m)
          else
            let raw := getField data m.primaryKey
            if truthy raw then raw
            else
              let ser := getField data m.serializedPrimaryKey
              if truthy ser then ser else .null
        else .null
    | none => .null

/-- `Utils.shouldIgnoreProperty`: drops a property when its name is not an
own field of the entity, or the value is a `Collection`, or it is a primary
key with a falsy value, or a directly-embedded entity whose primary key is
falsy (a `Reference` wrapper is not an entity here — `isEntity` is called
without `allowReference`), or the inverse side of a 1:1 relation, or a
setter-declared 1:1/m:1 relation whose value is exactly `undefined`, or
`persist === false`.  `none` models the error thrown by
`metadata.get(prop.type)` when the referenced type is unknown. -/
def shouldIgnoreProperty (reg : MetadataStorage) (entity : Value) (prop : EntityProperty) :
    Option Bool :=
  if !(hasField entity prop.name) then some true
  else
    let v := getField entity prop.name
    let isColl := isCollectionV v
    let noPkRefO : Option Bool :=
      if isEntityV v false then
        match reg.get prop.type with
        | some m => some (!(truthy (getField v m.primaryKey)))
        | none => none
      else some false
    match noPkRefO with
    | none => none
    | some noPkRef =>
        let noPkProp := prop.primary && !(truthy v)
        let inverse := (match prop.reference with | .oneToOne => true | _ => false)
          && !prop.owner
        let isSetter := (match prop.reference with
            | .oneToOne => true | .manyToOne => true | _ => false)
          && (truthyStrOpt prop.inversedBy || truthyStrOpt prop.mappedBy)
        let emptyRef := isSetter && (match v with | .undefined => true | _ => false)
        some (isColl || noPkProp || noPkRef || inverse || emptyRef
          || prop.persist == some false)

/-- Snapshot value of one surviving property (the body of the
`prepareEntity` loop): an entity reference (wrapped included) reduces to
its value at the referenced type's `primaryKey` field; else a custom type
converts to its database value; else arrays/objects are deep-copied; else
the scalar is copied as-is.  `none` models the error thrown by
`metadata.get(prop.type)`. -/
def snapshotField (reg : MetadataStorage) (entity : Value) (prop : EntityProperty) :
    Option Value :=
  let v := getField entity prop.name
  if isEntityV v true then
    match reg.get prop.type with
    | some m2 => some (getField v m2.primaryKey)
    | none => none
  else
    match prop.customType with
    | some f => some (f v)
    | none =>
        if isArrayV v || isObjectV v then some (copy v)
        else some v

/-- One iteration of the `prepareEntity` property loop threaded through the
possibility of a thrown error. -/
def prepareStep (reg : MetadataStorage) (entity : Value)
    (acc : Option (List (String × Value))) (prop : EntityProperty) :
    Option (List (String × Value)) :=
  match acc with
  | none => none
  | some fields =>
      match shouldIgnoreProperty reg entity prop with
      | none => none
      | some true => some fields
      | some false =>
          match snapshotField reg entity prop with
          | none => none
          | some v => some (setF fields prop.name v)

/-- `Utils.prepareEntity`: a value already carrying a truthy `__prepared`
marker is returned unchanged; otherwise the metadata of the value's
constructor name is looked up, each declared property is filtered and
mapped into a fresh snapshot object, and the snapshot receives the
non-enumerable `__prepared` marker (the `true` flag of `obj`). -/
def prepareEntity (reg : MetadataStorage) (entity : Value) : Option Value :=
  if preparedOf entity then some entity
  else
    match ctorNameO entity with
    | none => none
    | some cn =>
        match reg.get cn with
        | none => none
        | some meta =>
            match meta.properties.foldl (prepareStep reg entity) (some []) with
            | none => none
            | some fields => some (.obj true fields)

/-- `Utils.diffEntities`: normalize both sides, then diff the snapshots. -/
def diffEntities (reg : MetadataStorage) (a b : Value) : Option Value :=
  match prepareEntity reg a, prepareEntity reg b with
  | some sa, some sb => some (diff sa sb)
  | _, _ => none

/-! Concrete fixture data used by witnesses and counterexamples. -/

/-- Metadata of a composite-key entity type `B` with key fields `p`, `q`. -/
def sampleMetaB : EntityMetadata :=
  { primaryKey := "p", primaryKeys := ["p", "q"], compositePK := true }

/-- Scalar primary-key property `id`. -/
def samplePropId : EntityProperty := { name := "id", type := "number", primary := true }

/-- Owning many-to-one relation property `b` targeting type `B`. -/
def samplePropB : EntityProperty :=
  { name := "b", type := "B", reference := .manyToOne, owner := true }

/-- Metadata of an entity type `A` with scalar key `id` and an owning
many-to-one relation `b` targeting type `B`. -/
def sampleMetaA : EntityMetadata :=
  { primaryKey := "id", primaryKeys := ["id"],
    properties := [samplePropId, samplePropB] }

/-- Registry holding `A` and composite-key `B`. -/
def sampleReg : MetadataStorage := [("A", sampleMetaA), ("B", sampleMetaB)]

/-- A `B` instance with both composite key fields assigned. -/
def sampleEntB : Value := .entity "B" [("p", .num 1), ("q", .num 2)]

/-- An `A` instance whose relation field holds `sampleEntB` directly. -/
def sampleEntA : Value := .entity "A" [("id", .num 7), ("b", sampleEntB)]

/-- Metadata of `B` with a single key field `p`. -/
def sampleMetaB1 : EntityMetadata := { primaryKey := "p", primaryKeys := ["p"] }

/-- Registry holding `A` and single-key `B`. -/
def sampleReg1 : MetadataStorage := [("A", sampleMetaA), ("B", sampleMetaB1)]

/-- A `B` instance whose primary key is not yet assigned. -/
def sampleUnsavedB : Value := .entity "B" []

/-- An `A` instance whose relation field holds a `Reference` wrapper around
the unsaved `B`. -/
def sampleEntA1 : Value := .entity "A" [("id", .num 7), ("b", .ref sampleUnsavedB)]

/-- An `A` instance whose relation field holds the unsaved `B` directly. -/
def sampleEntA1d : Value := .entity "A" [("id", .num 7), ("b", sampleUnsavedB)]

/-! Helper lemmas about field lists. -/

theorem hasKeyF_iff_mem (fs : List (String × Value)) (k : String) :
    hasKeyF fs k = true ↔ k ∈ keysF fs := by
  induction fs with
  | nil => simp [hasKeyF, keysF]
  | cons hd tl ih =>
      obtain ⟨k', v⟩ := hd
      simp only [hasKeyF, keysF, List.map_cons, List.mem_cons, Bool.or_eq_true,
        decide_eq_true_eq]
      rw [show (k ∈ List.map Prod.fst tl) = (k ∈ keysF tl) from rfl, ← ih]
      constructor
      · rintro (h | h)
        · exact Or.inl h.symm
        · exact Or.inr h
      · rintro (h | h)
        · exact Or.inl h.symm
        · exact Or.inr h

theorem lookupF_setF_self (fs : List (String × Value)) (k : String) (v : Value) :
    lookupF (setF fs k v) k = v := by
  induction fs with
  | nil => simp [setF, lookupF]
  | cons hd tl ih =>
      obtain ⟨k', w⟩ := hd
      by_cases h : k' = k
      · simp [setF, h, lookupF]
      · simp [setF, h, lookupF, ih]

theorem lookupF_setF_ne (fs : List (String × Value)) (k k' : String) (v : Value)
    (h : k' ≠ k) : lookupF (setF fs k' v) k = lookupF fs k := by
  induction fs with
  | nil => simp [setF, lookupF, h]
  | cons hd tl ih =>
      obtain ⟨k0, w⟩ := hd
      by_cases h0 : k0 = k'
      · simp [setF, h0, lookupF, h]
      · simp only [setF, h0, if_false]
        by_cases h1 : k0 = k <;> simp [lookupF, h1, ih]

theorem hasKeyF_setF_ne (fs : List (String × Value)) (k k' : String) (v : Value)
    (h : k' ≠ k) : hasKeyF (setF fs k' v) k = hasKeyF fs k := by
  induction fs with
  | nil => simp [setF, hasKeyF, h]
  | cons hd tl ih =>
      obtain ⟨k0, w⟩ := hd
      by_cases h0 : k0 = k'
      · simp [setF, h0, hasKeyF, h]
      · simp [setF, h0, hasKeyF, ih]

theorem hasKeyF_setF_self (fs : List (String × Value)) (k : String) (v : Value) :
    hasKeyF (setF fs k v) k = true := by
  induction fs with
  | nil => simp [setF, hasKeyF]
  | cons hd tl ih =>
      obtain ⟨k0, w⟩ := hd
      by_cases h0 : k0 = k <;> simp [setF, h0, hasKeyF, ih]

theorem setF_append (fs : List (String × Value)) (k : String) (v : Value)
    (h : hasKeyF fs k = false) : setF fs k v = fs ++ [(k, v)] := by
  induction fs with
  | nil => simp [setF]
  | cons hd tl ih =>
      obtain ⟨k0, w⟩ := hd
      simp [hasKeyF] at h
      simp [setF, h.1, ih h.2]

theorem setF_lookup_self (fs : List (String × Value)) (k : String)
    (h : hasKeyF fs k = true) : setF fs k (lookupF fs k) = fs := by
  induction fs with
  | nil => simp [hasKeyF] at h
  | cons hd tl ih =>
      obtain ⟨k0, w⟩ := hd
      by_cases h0 : k0 = k
      · simp [setF, lookupF, h0]
      · simp [hasKeyF, h0] at h
        simp [setF, lookupF, h0, ih h]

theorem keysF_setF_subset (fs : List (String × Value)) (k k' : String) (v : Value)
    (h : k ∈ keysF (setF fs k' v)) : k ∈ keysF fs ∨ k = k' := by
  induction fs with
  | nil =>
      simp [setF, keysF] at h
      exact Or.inr h
  | cons hd tl ih =>
      obtain ⟨k0, w⟩ := hd
      by_cases h0 : k0 = k'
      · subst h0
        simp only [setF, keysF, List.map_cons, List.mem_cons, if_true, eq_self_iff_true,
          ite_true] at h ⊢
        exact Or.inl h
      · simp only [setF, if_neg h0, keysF, List.map_cons, List.mem_cons] at h ⊢
        rcases h with h | h
        · exact Or.inl (Or.inl h)
        · rcases ih h with h1 | h1
          · exact Or.inl (Or.inr h1)
          · exact Or.inr h1


theorem mergeInto_nonobject (t s : Value) (h : isObjectV t = false) :
    mergeInto t s = t := by
  cases s <;> simp [mergeInto, h]

/-- C7: `merge` processes sources left to right with later sources
overriding earlier ones; a non-plain-object source value (arrays and the
opaque `Date`/`RegExp`/`Buffer` classes included) overwrites the target
slot wholesale, while a plain nested object merges recursively into the
target slot; `merge({a:1}, {a:2, b:3}, {a:4})` yields `{a:4, b:3}`; the
returned value is the (functionally updated) target. -/
theorem merge_spec :
    (∀ t s rest, merge t (s :: rest) = merge (mergeInto t s) rest)
  ∧ merge (.obj false [("a", .num 1)])
      [.obj false [("a", .num 2), ("b", .num 3)], .obj false [("a", .num 4)]]
      = .obj false [("a", .num 4), ("b", .num 3)]
  ∧ (∀ p fs k v, isObjectNotOpaque v = false →
      getField (mergeInto (Value.obj p fs) (.obj false [(k, v)])) k = v)
  ∧ (∀ p fs k vfs, hasField (Value.obj p fs) k = true →
      mergeInto (Value.obj p fs) (.obj false [(k, .obj false vfs)])
        = setField (Value.obj p fs) k
            (mergeInto (getField (Value.obj p fs) k) (.obj false vfs))) := by
  refine ⟨fun t s rest => rfl, by rfl, ?_, ?_⟩
  · intro p fs k v h
    simp [mergeInto, mergeEntries, isObjectV, h, setField, getField, lookupF_setF_self]
  · intro p fs k vfs h
    simp [mergeInto, mergeEntries, isObjectV, isObjectNotOpaque, h]

/-- Witness for C7: overwriting a slot with an array replaces it
wholesale, and a plain nested object merges recursively. -/
theorem merge_spec_witness :
    isObjectNotOpaque (Value.arr [.num 9]) = false
  ∧ getField (mergeInto (Value.obj false [("a", .num 1)])
      (.obj false [("a", .arr [.num 9])])) "a" = .arr [.num 9]
  ∧ hasField (Value.obj false [("a", .obj false [("x", .num 1)])]) "a" = true
  ∧ mergeInto (Value.obj false [("a", .obj false [("x", .num 1)])])
      (.obj false [("a", .obj false [("y", .num 2)])])
      = setField (Value.obj false [("a", .obj false [("x", .num 1)])]) "a"
          (mergeInto (getField (Value.obj false [("a", .obj false [("x", .num 1)])]) "a")
            (.obj false [("y", .num 2)])) :=
  ⟨rfl,
   merge_spec.2.2.1 false [("a", .num 1)] "a" (.arr [.num 9]) rfl,
   rfl,
   merge_spec.2.2.2 false [("a", .obj false [("x", .num 1)])] "a" [("y", .num 2)] rfl⟩

/-- C10: when the target holds a non-object value at a key and the source
holds a plain nested structure at that same key, `merge` leaves the
target unchanged and the source structure is silently discarded (the
recursive merge into a non-object is a no-op). -/
theorem merge_nonobject_slot_noop (t : Value) (k : String) (v : Value)
    (hk : hasField t k = true) (hno : isObjectV (getField t k) = false)
    (hpl : isObjectNotOpaque v = true) :
    mergeInto t (.obj false [(k, v)]) = t := by
  cases t with
  | obj p fs =>
      have hkey : hasKeyF fs k = true := hk
      simp only [mergeInto, isObjectV, if_true, mergeEntries, hpl, hk, ite_true]
      rw [mergeInto_nonobject _ _ hno]
      simp only [getField, setField]
      rw [setF_lookup_self fs k hkey]
  | entity n fs =>
      have hkey : hasKeyF fs k = true := hk
      simp only [mergeInto, isObjectV, if_true, mergeEntries, hpl, hk, ite_true]
      rw [mergeInto_nonobject _ _ hno]
      simp only [getField, setField]
      rw [setF_lookup_self fs k hkey]
  | ref t' =>
      simp only [mergeInto, isObjectV, if_true, mergeEntries, hpl, hk, ite_true, setField]
  | undefined => simp [hasField] at hk
  | null => simp [hasField] at hk
  | bool b => simp [hasField] at hk
  | num n => simp [hasField] at hk
  | str a => simp [hasField] at hk
  | arr xs => simp [hasField] at hk
  | collection xs => simp [hasField] at hk
  | objectId a => simp [hasField] at hk
  | date a => simp [hasField] at hk
  | regexp a => simp [hasField] at hk
  | buffer bs => simp [hasField] at hk

/-- Witness for C10 at a concrete input: target `{a:1}`, source `{a:{x:2}}`. -/
theorem merge_nonobject_slot_noop_witness :
    hasField (Value.obj false [("a", .num 1)]) "a" = true
  ∧ isObjectV (getField (Value.obj false [("a", .num 1)]) "a") = false
  ∧ isObjectNotOpaque (Value.obj false [("x", .num 2)]) = true
  ∧ mergeInto (Value.obj false [("a", .num 1)]) (.obj false [("a", .obj false [("x", .num 2)])])
      = Value.obj false [("a", .num 1)] :=
  ⟨rfl, rfl, rfl,
   merge_nonobject_slot_noop (Value.obj false [("a", .num 1)]) "a"
     (.obj false [("x", .num 2)]) rfl rfl rfl⟩

/-- C8: a composite-key field whose value is `null` (or `undefined`)
contributes its raw value to the join, which coerces to an empty segment;
the hash is total and is exactly the `~`-join of the per-field segments. -/
theorem getCompositeKeyHash_null_segment (e : Value) (m : EntityMetadata) (pk : String)
    (hmem : pk ∈ m.primaryKeys)
    (hnull : getField e pk = Value.null ∨ getField e pk = Value.undefined) :
    compositeSeg e pk = "" ∧ "" ∈ m.primaryKeys.map (compositeSeg e) ∧
      getCompositeKeyHash e m
        = String.intercalate "~" (m.primaryKeys.map (compositeSeg e)) := by
  have hseg : compositeSeg e pk = "" := by
    rcases hnull with h | h <;>
      simp [compositeSeg, h, isEntityV, isReferenceV, joinSeg]
  refine ⟨hseg, ?_, rfl⟩
  have hmm := List.mem_map_of_mem (compositeSeg e) hmem
  rwa [hseg] at hmm

/-- Witness for C8: composite key fields `[a, b]` with `a = 1`, `b = null`
produce the hash `"1~"` with an empty trailing segment. -/
theorem getCompositeKeyHash_null_segment_witness :
    "b" ∈ (EntityMetadata.primaryKeys
      { primaryKey := "a", primaryKeys := ["a", "b"], compositePK := true })
  ∧ (compositeSeg (Value.entity "B" [("a", .num 1), ("b", .null)]) "b" = ""
      ∧ "" ∈ (EntityMetadata.primaryKeys
          { primaryKey := "a", primaryKeys := ["a", "b"], compositePK := true }).map
          (compositeSeg (Value.entity "B" [("a", .num 1), ("b", .null)]))
      ∧ getCompositeKeyHash (Value.entity "B" [("a", .num 1), ("b", .null)])
          { primaryKey := "a", primaryKeys := ["a", "b"], compositePK := true }
        = String.intercalate "~" ((EntityMetadata.primaryKeys
            { primaryKey := "a", primaryKeys := ["a", "b"], compositePK := true }).map
            (compositeSeg (Value.entity "B" [("a", .num 1), ("b", .null)]))))
  ∧ getCompositeKeyHash (Value.entity "B" [("a", .num 1), ("b", .null)])
      { primaryKey := "a", primaryKeys := ["a", "b"], compositePK := true } = "1~" :=
  ⟨by decide,
   getCompositeKeyHash_null_segment (Value.entity "B" [("a", .num 1), ("b", .null)])
     { primaryKey := "a", primaryKeys := ["a", "b"], compositePK := true } "b"
     (by decide) (Or.inl rfl),
   by rfl⟩

/-- C5: `getCompositeKeyHash` is deterministic and order-fixed — it is a
pure function of the entity field lookups and the metadata key order, so
two instances exposing the same fields in different enumeration order
hash identically; for key fields `[a, b]` with `a = 1`, `b = "x"` it
returns `"1~x"`. -/
theorem getCompositeKeyHash_deterministic :
    (∀ e1 e2 m, (∀ k, getField e1 k = getField e2 k) →
        getCompositeKeyHash e1 m = getCompositeKeyHash e2 m)
  ∧ getCompositeKeyHash (.entity "E" [("a", .num 1), ("b", .str "x")])
      { primaryKey := "a", primaryKeys := ["a", "b"], compositePK := true } = "1~x" := by
  constructor
  · intro e1 e2 m h
    unfold getCompositeKeyHash
    congr 1
    apply List.map_congr_left
    intro pk _
    unfold compositeSeg
    rw [h pk]
  · rfl

/-- Witness for C5: the same fields enumerated in the opposite order on
the instance produce the same hash. -/
theorem getCompositeKeyHash_deterministic_witness :
    getCompositeKeyHash (Value.entity "E" [("a", .num 1), ("b", .str "x")])
      { primaryKey := "a", primaryKeys := ["a", "b"], compositePK := true }
    = getCompositeKeyHash (Value.entity "E" [("b", .str "x"), ("a", .num 1)])
      { primaryKey := "a", primaryKeys := ["a", "b"], compositePK := true } :=
  getCompositeKeyHash_deterministic.1 _ _ _ (by
    intro k
    show lookupF [("a", Value.num 1), ("b", Value.str "x")] k
      = lookupF [("b", Value.str "x"), ("a", Value.num 1)] k
    by_cases h1 : "a" = k
    · subst h1; rfl
    · by_cases h2 : "b" = k
      · subst h2; rfl
      · simp [lookupF, h1, h2])


/-! Helper lemmas about the `prepareEntity` property fold. -/

theorem prepareStep_err (reg : MetadataStorage) (e : Value)
    (acc : List (String × Value)) (p : EntityProperty)
    (h : shouldIgnoreProperty reg e p = none) :
    prepareStep reg e (some acc) p = none := by
  simp [prepareStep, h]

theorem prepareStep_ignore (reg : MetadataStorage) (e : Value)
    (acc : List (String × Value)) (p : EntityProperty)
    (h : shouldIgnoreProperty reg e p = some true) :
    prepareStep reg e (some acc) p = some acc := by
  simp [prepareStep, h]

theorem prepareStep_keep_err (reg : MetadataStorage) (e : Value)
    (acc : List (String × Value)) (p : EntityProperty)
    (h : shouldIgnoreProperty reg e p = some false)
    (hv : snapshotField reg e p = none) :
    prepareStep reg e (some acc) p = none := by
  simp [prepareStep, h, hv]

theorem prepareStep_keep (reg : MetadataStorage) (e : Value)
    (acc : List (String × Value)) (p : EntityProperty) (v : Value)
    (h : shouldIgnoreProperty reg e p = some false)
    (hv : snapshotField reg e p = some v) :
    prepareStep reg e (some acc) p = some (setF acc p.name v) := by
  simp [prepareStep, h, hv]

theorem foldl_prepareStep_none (reg : MetadataStorage) (e : Value)
    (props : List EntityProperty) :
    props.foldl (prepareStep reg e) none = none := by
  induction props with
  | nil => rfl
  | cons p ps ih => simpa [prepareStep] using ih

theorem foldl_prepareStep_preserved (reg : MetadataStorage) (e : Value) :
    ∀ (props : List EntityProperty) (acc fields : List (String × Value)) (k : String),
      (∀ q ∈ props, q.name ≠ k) →
      props.foldl (prepareStep reg e) (some acc) = some fields →
      lookupF fields k = lookupF acc k ∧ hasKeyF fields k = hasKeyF acc k := by
  intro props
  induction props with
  | nil =>
      intro acc fields k _ hf
      cases hf
      exact ⟨rfl, rfl⟩
  | cons p ps ih =>
      intro acc fields k hne hf
      have hpk : p.name ≠ k := hne p (List.mem_cons_self p ps)
      have hne2 : ∀ q ∈ ps, q.name ≠ k := fun q hq => hne q (List.mem_cons_of_mem p hq)
      rw [List.foldl_cons] at hf
      cases hig : shouldIgnoreProperty reg e p with
      | none =>
          rw [prepareStep_err reg e acc p hig, foldl_prepareStep_none] at hf
          cases hf
      | some b =>
          cases b with
          | true =>
              rw [prepareStep_ignore reg e acc p hig] at hf
              exact ih acc fields k hne2 hf
          | false =>
              cases hv : snapshotField reg e p with
              | none =>
                  rw [prepareStep_keep_err reg e acc p hig hv,
                    foldl_prepareStep_none] at hf
                  cases hf
              | some v =>
                  rw [prepareStep_keep reg e acc p v hig hv] at hf
                  have h2 := ih (setF acc p.name v) fields k hne2 hf
                  rw [lookupF_setF_ne acc k p.name v hpk,
                    hasKeyF_setF_ne acc k p.name v hpk] at h2
                  exact h2

theorem keysF_foldl_prepareStep_subset (reg : MetadataStorage) (e : Value) :
    ∀ (props : List EntityProperty) (acc fields : List (String × Value)),
      props.foldl (prepareStep reg e) (some acc) = some fields →
      ∀ k ∈ keysF fields, k ∈ keysF acc ∨ k ∈ props.map EntityProperty.name := by
  intro props
  induction props with
  | nil =>
      intro acc fields hf k hk
      cases hf
      exact Or.inl hk
  | cons p ps ih =>
      intro acc fields hf k hk
      rw [List.foldl_cons] at hf
      cases hig : shouldIgnoreProperty reg e p with
      | none =>
          rw [prepareStep_err reg e acc p hig, foldl_prepareStep_none] at hf
          cases hf
      | some b =>
          cases b with
          | true =>
              rw [prepareStep_ignore reg e acc p hig] at hf
              rcases ih acc fields hf k hk with h | h
              · exact Or.inl h
              · exact Or.inr (List.mem_cons_of_mem _ h)
          | false =>
              cases hv : snapshotField reg e p with
              | none =>
                  rw [prepareStep_keep_err reg e acc p hig hv,
                    foldl_prepareStep_none] at hf
                  cases hf
              | some v =>
                  rw [prepareStep_keep reg e acc p v hig hv] at hf
                  rcases ih _ fields hf k hk with h | h
                  · rcases keysF_setF_subset acc k p.name v h with h1 | h1
                    · exact Or.inl h1
                    · exact Or.inr (h1 ▸ List.mem_cons_self _ _)
                  · exact Or.inr (List.mem_cons_of_mem _ h)

theorem foldl_prepareStep_included (reg : MetadataStorage) (e : Value) :
    ∀ (props : List EntityProperty) (acc fields : List (String × Value))
      (prop : EntityProperty) (v : Value),
      (props.map EntityProperty.name).Nodup →
      prop ∈ props →
      shouldIgnoreProperty reg e prop = some false →
      snapshotField reg e prop = some v →
      props.foldl (prepareStep reg e) (some acc) = some fields →
      lookupF fields prop.name = v ∧ hasKeyF fields prop.name = true := by
  intro props
  induction props with
  | nil =>
      intro acc fields prop v _ hmem _ _ _
      cases hmem
  | cons p ps ih =>
      intro acc fields prop v hnd hmem hig hv hf
      rw [List.foldl_cons] at hf
      have hnd2 : (ps.map EntityProperty.name).Nodup := (List.nodup_cons.mp hnd).2
      rcases List.mem_cons.mp hmem with heq | hmem2
      · subst heq
        rw [prepareStep_keep reg e acc prop v hig hv] at hf
        have hnin : prop.name ∉ ps.map EntityProperty.name := (List.nodup_cons.mp hnd).1
        have hne : ∀ q ∈ ps, q.name ≠ prop.name := by
          intro q hq heq2
          exact hnin (heq2 ▸ List.mem_map_of_mem EntityProperty.name hq)
        have h2 := foldl_prepareStep_preserved reg e ps _ fields prop.name hne hf
        rw [lookupF_setF_self, hasKeyF_setF_self] at h2
        exact h2
      · cases hig0 : shouldIgnoreProperty reg e p with
        | none =>
            rw [prepareStep_err reg e acc p hig0, foldl_prepareStep_none] at hf
            cases hf
        | some b =>
            cases b with
            | true =>
                rw [prepareStep_ignore reg e acc p hig0] at hf
                exact ih acc fields prop v hnd2 hmem2 hig hv hf
            | false =>
                cases hv0 : snapshotField reg e p with
                | none =>
                    rw [prepareStep_keep_err reg e acc p hig0 hv0,
                      foldl_prepareStep_none] at hf
                    cases hf
                | some w =>
                    rw [prepareStep_keep reg e acc p w hig0 hv0] at hf
                    exact ih _ fields prop v hnd2 hmem2 hig hv hf

theorem foldl_prepareStep_omitted (reg : MetadataStorage) (e : Value) :
    ∀ (props : List EntityProperty) (acc fields : List (String × Value))
      (prop : EntityProperty),
      (props.map EntityProperty.name).Nodup →
      prop ∈ props →
      shouldIgnoreProperty reg e prop = some true →
      hasKeyF acc prop.name = false →
      props.foldl (prepareStep reg e) (some acc) = some fields →
      hasKeyF fields prop.name = false := by
  intro props
  induction props with
  | nil =>
      intro acc fields prop _ hmem _ _ _
      cases hmem
  | cons p ps ih =>
      intro acc fields prop hnd hmem hig hacc hf
      rw [List.foldl_cons] at hf
      have hnd2 : (ps.map EntityProperty.name).Nodup := (List.nodup_cons.mp hnd).2
      rcases List.mem_cons.mp hmem with heq | hmem2
      · subst heq
        rw [prepareStep_ignore reg e acc prop hig] at hf
        have hnin : prop.name ∉ ps.map EntityProperty.name := (List.nodup_cons.mp hnd).1
        have hne : ∀ q ∈ ps, q.name ≠ prop.name := by
          intro q hq heq2
          exact hnin (heq2 ▸ List.mem_map_of_mem EntityProperty.name hq)
        have h2 := foldl_prepareStep_preserved reg e ps acc fields prop.name hne hf
        rw [h2.2, hacc]
      · have hnamene : p.name ≠ prop.name := by
          intro heq2
          exact (List.nodup_cons.mp hnd).1
            (heq2 ▸ List.mem_map_of_mem EntityProperty.name hmem2)
        cases hig0 : shouldIgnoreProperty reg e p with
        | none =>
            rw [prepareStep_err reg e acc p hig0, foldl_prepareStep_none] at hf
            cases hf
        | some b =>
            cases b with
            | true =>
                rw [prepareStep_ignore reg e acc p hig0] at hf
                exact ih acc fields prop hnd2 hmem2 hig hacc hf
            | false =>
                cases hv0 : snapshotField reg e p with
                | none =>
                    rw [prepareStep_keep_err reg e acc p hig0 hv0,
                      foldl_prepareStep_none] at hf
                    cases hf
                | some w =>
                    rw [prepareStep_keep reg e acc p w hig0 hv0] at hf
                    refine ih _ fields prop hnd2 hmem2 hig ?_ hf
                    rw [hasKeyF_setF_ne acc prop.name p.name w hnamene]
                    exact hacc

/-- C1: `prepareEntity` is idempotent — re-normalizing the result of a
normalization (successful or thrown) is exactly the original result, and
a value already carrying the prepared marker is returned unchanged. -/
theorem prepareEntity_idempotent (reg : MetadataStorage) (e : Value) :
    (prepareEntity reg e).bind (prepareEntity reg) = prepareEntity reg e := by
  by_cases hp : preparedOf e = true
  · have h1 : prepareEntity reg e = some e := by
      unfold prepareEntity
      rw [hp]
      simp
    rw [h1]
    exact h1
  · rw [Bool.not_eq_true] at hp
    cases hcn : ctorNameO e with
    | none =>
        have h1 : prepareEntity reg e = none := by
          unfold prepareEntity
          rw [hp, hcn]
          simp
        rw [h1]
        rfl
    | some cn =>
        cases hm : reg.get cn with
        | none =>
            have h1 : prepareEntity reg e = none := by
              unfold prepareEntity
              rw [hp, hcn]
              simp [hm]
            rw [h1]
            rfl
        | some meta =>
            cases hf : meta.properties.foldl (prepareStep reg e) (some []) with
            | none =>
                have h1 : prepareEntity reg e = none := by
                  unfold prepareEntity
                  rw [hp, hcn]
                  simp [hm, hf]
                rw [h1]
                rfl
            | some fields =>
                have h1 : prepareEntity reg e = some (.obj true fields) := by
                  unfold prepareEntity
                  rw [hp, hcn]
                  simp [hm, hf]
                rw [h1]
                show prepareEntity reg (.obj true fields) = some (.obj true fields)
                unfold prepareEntity
                simp [preparedOf]


theorem prepareEntity_eq (reg : MetadataStorage) (e : Value) (cn : String)
    (meta : EntityMetadata) (hnp : preparedOf e = false)
    (hcn : ctorNameO e = some cn) (hm : reg.get cn = some meta) :
    prepareEntity reg e
      = match meta.properties.foldl (prepareStep reg e) (some []) with
        | none => none
        | some fields => some (.obj true fields) := by
  unfold prepareEntity
  rw [hnp, hcn]
  simp [hm]

theorem diff_foldl_keys_subset (a : Value) :
    ∀ (entries acc : List (String × Value)) (k : String),
      k ∈ keysF (entries.foldl
        (fun ret kv => if equalsV (getField a kv.1) kv.2 then ret else setF ret kv.1 kv.2) acc) →
      k ∈ keysF acc ∨ k ∈ keysF entries := by
  intro entries
  induction entries with
  | nil =>
      intro acc k hk
      exact Or.inl hk
  | cons hd tl ih =>
      obtain ⟨k0, v0⟩ := hd
      intro acc k hk
      rw [List.foldl_cons] at hk
      by_cases he : equalsV (getField a k0) v0 = true
      · simp only [he, if_true] at hk
        rcases ih acc k hk with h | h
        · exact Or.inl h
        · exact Or.inr (List.mem_cons_of_mem _ h)
      · rw [Bool.not_eq_true] at he
        simp only [he, Bool.false_eq_true, if_false] at hk
        rcases ih (setF acc k0 v0) k hk with h | h
        · rcases keysF_setF_subset acc k k0 v0 h with h1 | h1
          · exact Or.inl h1
          · exact Or.inr (by simp [keysF, h1])
        · exact Or.inr (List.mem_cons_of_mem _ h)

/-- C9: every enumerable key of a freshly built snapshot is a declared
property name of the entity's metadata, and since the `__prepared` marker
is non-enumerable (the `Bool` flag of `obj`, never a field), every key
`diff` iterates over any diff against such a snapshot is also a declared
property name — the marker never shows up. -/
theorem prepareEntity_keys_declared (reg : MetadataStorage) (e : Value) (cn : String)
    (meta : EntityMetadata) (s : Value)
    (hnp : preparedOf e = false) (hcn : ctorNameO e = some cn)
    (hm : reg.get cn = some meta) (hs : prepareEntity reg e = some s) :
    (∀ k ∈ keysF (entriesOf s), k ∈ meta.properties.map EntityProperty.name)
  ∧ (∀ a k, k ∈ keysF (entriesOf (diff a s)) → k ∈ meta.properties.map EntityProperty.name) := by
  rw [prepareEntity_eq reg e cn meta hnp hcn hm] at hs
  cases hf : meta.properties.foldl (prepareStep reg e) (some []) with
  | none =>
      rw [hf] at hs
      cases hs
  | some fields =>
      rw [hf] at hs
      simp only [Option.some.injEq] at hs
      subst hs
      have hsub : ∀ k ∈ keysF fields, k ∈ meta.properties.map EntityProperty.name := by
        intro k hk
        rcases keysF_foldl_prepareStep_subset reg e meta.properties [] fields hf k hk with h | h
        · cases h
        · exact h
      refine ⟨hsub, ?_⟩
      intro a k hk
      have hk2 : k ∈ keysF (entriesOf (Value.obj true fields)) := by
        rcases diff_foldl_keys_subset a fields [] k hk with h | h
        · cases h
        · exact h
      exact hsub k hk2

/-- Witness for C9 at the concrete entity `sampleEntA`. -/
theorem prepareEntity_keys_declared_witness :
    (∀ k ∈ keysF (entriesOf (Value.obj true [("id", .num 7), ("b", .num 1)])),
        k ∈ sampleMetaA.properties.map EntityProperty.name)
  ∧ (∀ a k, k ∈ keysF (entriesOf (diff a (Value.obj true [("id", .num 7), ("b", .num 1)]))) →
        k ∈ sampleMetaA.properties.map EntityProperty.name) :=
  prepareEntity_keys_declared sampleReg sampleEntA "A" sampleMetaA
    (Value.obj true [("id", .num 7), ("b", .num 1)]) rfl rfl rfl rfl


theorem diff_foldl_filter (a : Value) :
    ∀ (entries acc : List (String × Value)),
      (keysF entries).Nodup →
      (∀ k ∈ keysF entries, hasKeyF acc k = false) →
      entries.foldl
        (fun ret kv => if equalsV (getField a kv.1) kv.2 then ret else setF ret kv.1 kv.2) acc
        = acc ++ entries.filter (fun kv => !(equalsV (getField a kv.1) kv.2)) := by
  intro entries
  induction entries with
  | nil =>
      intro acc _ _
      simp
  | cons hd tl ih =>
      obtain ⟨k0, v0⟩ := hd
      intro acc hnd hfresh
      have hnd' : (k0 :: keysF tl).Nodup := hnd
      have hk0 : k0 ∉ keysF tl := (List.nodup_cons.mp hnd').1
      have hnd2 : (keysF tl).Nodup := (List.nodup_cons.mp hnd').2
      rw [List.foldl_cons]
      by_cases he : equalsV (getField a k0) v0 = true
      · simp only [he, if_true, List.filter_cons, Bool.not_true, Bool.false_eq_true,
          if_false]
        have hfresh2 : ∀ k ∈ keysF tl, hasKeyF acc k = false := by
          intro k hk
          exact hfresh k (by simp [keysF] at hk ⊢; exact Or.inr hk)
        simpa using ih acc hnd2 hfresh2
      · rw [Bool.not_eq_true] at he
        simp only [he, Bool.false_eq_true, if_false, List.filter_cons, Bool.not_false,
          if_true]
        have hacc0 : hasKeyF acc k0 = false := hfresh k0 (by simp [keysF])
        rw [setF_append acc k0 v0 hacc0]
        have hfresh2 : ∀ k ∈ keysF tl, hasKeyF (acc ++ [(k0, v0)]) k = false := by
          intro k hk
          have h1 : hasKeyF acc k = false :=
            hfresh k (by simp [keysF] at hk ⊢; exact Or.inr hk)
          have h2 : k0 ≠ k := fun h => hk0 (h ▸ hk)
          rw [show acc ++ [(k0, v0)] = setF acc k0 v0 from (setF_append acc k0 v0 hacc0).symm]
          rw [hasKeyF_setF_ne acc k k0 v0 h2]
          exact h1
        rw [ih (acc ++ [(k0, v0)]) hnd2 hfresh2]
        simp

/-- C2 (amended): `diff(a, b)` contains exactly those entries of `b` whose
value is not `equals`-equal to `a`'s value at that key (a read of an
absent key yielding `undefined`), mapped to `b`'s value, in `b`'s own
field order.  A key absent from `a` is therefore included precisely when
`b`'s value at it is not itself `undefined`. -/
theorem diff_changed_fields (a b : Value) (hnd : (keysF (entriesOf b)).Nodup) :
    entriesOf (diff a b)
      = (entriesOf b).filter (fun kv => !(equalsV (getField a kv.1) kv.2)) := by
  show (entriesOf b).foldl _ [] = _
  rw [diff_foldl_filter a (entriesOf b) [] hnd (fun k _ => rfl)]
  simp

/-- Counterexample for C2 as stated: the key `y` is absent from `A = {}`
yet does not appear in `diff(A, B)` for `B = {y: undefined}`, because
`equals(A.y, B.y)` compares `undefined` with `undefined`. -/
theorem diff_absent_field_counterexample :
    hasField (Value.obj false []) "y" = false
  ∧ hasKeyF (entriesOf (Value.obj false [("y", Value.undefined)])) "y" = true
  ∧ entriesOf (diff (Value.obj false []) (Value.obj false [("y", Value.undefined)])) = [] :=
  ⟨rfl, rfl, rfl⟩

/-- Witness for C2 at the spec's own example `A = {x:1, y:2}`,
`B = {x:1, y:3, z:4}`, whose diff is `{y:3, z:4}`. -/
theorem diff_changed_fields_witness :
    (keysF (entriesOf (Value.obj false
        [("x", .num 1), ("y", .num 3), ("z", .num 4)]))).Nodup
  ∧ entriesOf (diff (Value.obj false [("x", .num 1), ("y", .num 2)])
        (Value.obj false [("x", .num 1), ("y", .num 3), ("z", .num 4)]))
      = (entriesOf (Value.obj false [("x", .num 1), ("y", .num 3), ("z", .num 4)])).filter
          (fun kv => !(equalsV
            (getField (Value.obj false [("x", .num 1), ("y", .num 2)]) kv.1) kv.2))
  ∧ diff (Value.obj false [("x", .num 1), ("y", .num 2)])
        (Value.obj false [("x", .num 1), ("y", .num 3), ("z", .num 4)])
      = Value.obj false [("y", .num 3), ("z", .num 4)] :=
  ⟨by decide,
   diff_changed_fields (Value.obj false [("x", .num 1), ("y", .num 2)])
     (Value.obj false [("x", .num 1), ("y", .num 3), ("z", .num 4)]) (by decide),
   by rfl⟩

/-- C3 (amended): a surviving field whose value is an entity reference
(directly embedded or wrapped) is reduced in the snapshot to the
referenced value's field named by the referenced type's `primaryKey` —
for composite keys this is the single `primaryKey` field's value, not the
composite identity. -/
theorem prepareEntity_reference_identity (reg : MetadataStorage) (e : Value) (cn : String)
    (meta m2 : EntityMetadata) (prop : EntityProperty) (s : Value)
    (hnp : preparedOf e = false) (hcn : ctorNameO e = some cn)
    (hm : reg.get cn = some meta)
    (hnd : (meta.properties.map EntityProperty.name).Nodup)
    (hmem : prop ∈ meta.properties)
    (hig : shouldIgnoreProperty reg e prop = some false)
    (hent : isEntityV (getField e prop.name) true = true)
    (hm2 : reg.get prop.type = some m2)
    (hs : prepareEntity reg e = some s) :
    hasKeyF (entriesOf s) prop.name = true ∧
      lookupF (entriesOf s) prop.name
        = getField (getField e prop.name) m2.primaryKey := by
  have hv : snapshotField reg e prop
      = some (getField (getField e prop.name) m2.primaryKey) := by
    simp [snapshotField, hent, hm2]
  rw [prepareEntity_eq reg e cn meta hnp hcn hm] at hs
  cases hf : meta.properties.foldl (prepareStep reg e) (some []) with
  | none =>
      rw [hf] at hs
      cases hs
  | some fields =>
      rw [hf] at hs
      simp only [Option.some.injEq] at hs
      subst hs
      have h2 := foldl_prepareStep_included reg e meta.properties [] fields prop
        (getField (getField e prop.name) m2.primaryKey) hnd hmem hig hv hf
      exact ⟨h2.2, h2.1⟩

/-- Counterexample for C3 as stated: for a composite-key referenced entity
(`p = 1`, `q = 2`), the snapshot stores that entity's single `primaryKey`
field value `1`, while the PrimaryKeyResolver's composite identity is the
string `"1~2"`. -/
theorem prepareEntity_composite_identity_counterexample :
    prepareEntity sampleReg sampleEntA = some (.obj true [("id", .num 7), ("b", .num 1)])
  ∧ extractPK sampleReg sampleEntB (some sampleMetaB) = .str "1~2"
  ∧ lookupF (entriesOf (Value.obj true [("id", .num 7), ("b", .num 1)])) "b"
      ≠ .str "1~2" := by
  refine ⟨rfl, rfl, fun h => ?_⟩
  cases h

/-- Witness for C3 (amended) at the concrete registry `sampleReg`. -/
theorem prepareEntity_reference_identity_witness :
    hasKeyF (entriesOf (Value.obj true [("id", .num 7), ("b", .num 1)])) "b" = true
  ∧ lookupF (entriesOf (Value.obj true [("id", .num 7), ("b", .num 1)])) "b"
      = getField (getField sampleEntA "b") sampleMetaB.primaryKey :=
  prepareEntity_reference_identity sampleReg sampleEntA "A" sampleMetaA sampleMetaB
    samplePropB (Value.obj true [("id", .num 7), ("b", .num 1)])
    rfl rfl rfl (by decide) (List.mem_cons_of_mem _ (List.mem_cons_self _ _))
    rfl rfl rfl rfl


theorem lookupF_of_not_hasKey (fs : List (String × Value)) (k : String)
    (h : hasKeyF fs k = false) : lookupF fs k = .undefined := by
  induction fs with
  | nil => rfl
  | cons hd tl ih =>
      obtain ⟨k0, v⟩ := hd
      simp only [hasKeyF, Bool.or_eq_false_iff, decide_eq_false_iff_not] at h
      simp [lookupF, h.1, ih h.2]

theorem hasField_of_getField_ne :
    ∀ (e : Value) (k : String), getField e k ≠ .undefined → hasField e k = true
  | .obj p fs, k, h => by
      cases hb : hasKeyF fs k with
      | false => exact absurd (by simpa [getField] using lookupF_of_not_hasKey fs k hb) h
      | true => simpa [hasField] using hb
  | .entity n fs, k, h => by
      cases hb : hasKeyF fs k with
      | false => exact absurd (by simpa [getField] using lookupF_of_not_hasKey fs k hb) h
      | true => simpa [hasField] using hb
  | .ref t, k, h => by
      simpa [hasField] using hasField_of_getField_ne t k (by simpa [getField] using h)
  | .undefined, _, h => absurd rfl h
  | .null, _, h => absurd rfl h
  | .bool _, _, h => absurd rfl h
  | .num _, _, h => absurd rfl h
  | .str _, _, h => absurd rfl h
  | .arr _, _, h => absurd rfl h
  | .collection _, _, h => absurd rfl h
  | .objectId _, _, h => absurd rfl h
  | .date _, _, h => absurd rfl h
  | .regexp _, _, h => absurd rfl h
  | .buffer _, _, h => absurd rfl h

theorem shouldIgnore_of_unsaved_direct (reg : MetadataStorage) (e : Value)
    (prop : EntityProperty) (m2 : EntityMetadata)
    (hm2 : reg.get prop.type = some m2)
    (hent : isEntityV (getField e prop.name) false = true)
    (hfalsy : truthy (getField (getField e prop.name) m2.primaryKey) = false) :
    shouldIgnoreProperty reg e prop = some true := by
  have hne : getField e prop.name ≠ .undefined := by
    intro hu
    rw [hu] at hent
    simp [isEntityV, isReferenceV] at hent
  have hhas : hasField e prop.name = true := hasField_of_getField_ne e prop.name hne
  simp [shouldIgnoreProperty, hhas, hent, hm2, hfalsy]

/-- C4 (amended): a field holding a directly-embedded entity whose primary
key is falsy is dropped from the snapshot; a field holding a `Reference`
wrapper is not dropped on that ground — it survives (when no other
exclusion applies) carrying the wrapped target's value at the referenced
type's `primaryKey` field, which is `undefined` while the key is
unassigned and becomes the identity once the key is assigned. -/
theorem prepareEntity_unsaved_reference (reg : MetadataStorage) (e : Value) (cn : String)
    (meta : EntityMetadata) (s : Value)
    (hnp : preparedOf e = false) (hcn : ctorNameO e = some cn)
    (hm : reg.get cn = some meta)
    (hnd : (meta.properties.map EntityProperty.name).Nodup)
    (hs : prepareEntity reg e = some s) :
    (∀ prop ∈ meta.properties, ∀ m2 : EntityMetadata, reg.get prop.type = some m2 →
        isEntityV (getField e prop.name) false = true →
        truthy (getField (getField e prop.name) m2.primaryKey) = false →
        hasKeyF (entriesOf s) prop.name = false)
  ∧ (∀ prop ∈ meta.properties, ∀ (t : Value) (m2 : EntityMetadata),
        getField e prop.name = Value.ref t →
        reg.get prop.type = some m2 →
        shouldIgnoreProperty reg e prop = some false →
        hasKeyF (entriesOf s) prop.name = true ∧
          lookupF (entriesOf s) prop.name = getField t m2.primaryKey) := by
  rw [prepareEntity_eq reg e cn meta hnp hcn hm] at hs
  cases hf : meta.properties.foldl (prepareStep reg e) (some []) with
  | none =>
      rw [hf] at hs
      cases hs
  | some fields =>
      rw [hf] at hs
      simp only [Option.some.injEq] at hs
      subst hs
      constructor
      · intro prop hmem m2 hm2 hent hfalsy
        have hig : shouldIgnoreProperty reg e prop = some true :=
          shouldIgnore_of_unsaved_direct reg e prop m2 hm2 hent hfalsy
        exact foldl_prepareStep_omitted reg e meta.properties [] fields prop
          hnd hmem hig rfl hf
      · intro prop hmem t m2 href hm2 hig
        have hv : snapshotField reg e prop = some (getField t m2.primaryKey) := by
          simp [snapshotField, href, isEntityV, isReferenceV, hm2, getField]
        have h2 := foldl_prepareStep_included reg e meta.properties [] fields prop
          (getField t m2.primaryKey) hnd hmem hig hv hf
        exact ⟨h2.2, h2.1⟩

/-- Counterexample for C4 as stated: the relation field `b` holds a
`Reference` wrapper around an unsaved `B` (primary key unassigned), yet
the snapshot does NOT drop `b` — it keeps it with value `undefined`. -/
theorem prepareEntity_wrapped_unsaved_counterexample :
    truthy (getField sampleUnsavedB sampleMetaB1.primaryKey) = false
  ∧ getField sampleEntA1 "b" = .ref sampleUnsavedB
  ∧ prepareEntity sampleReg1 sampleEntA1 = some (.obj true [("id", .num 7), ("b", .undefined)])
  ∧ hasKeyF (entriesOf (Value.obj true [("id", .num 7), ("b", .undefined)])) "b" = true :=
  ⟨rfl, rfl, rfl, rfl⟩

/-- Witness for C4 (amended): the directly-embedded unsaved `B` is dropped
from the snapshot, and the wrapped unsaved `B` is kept with `undefined`. -/
theorem prepareEntity_unsaved_reference_witness :
    hasKeyF (entriesOf (Value.obj true [("id", .num 7)])) "b" = false
  ∧ (hasKeyF (entriesOf (Value.obj true [("id", .num 7), ("b", .undefined)])) "b" = true
      ∧ lookupF (entriesOf (Value.obj true [("id", .num 7), ("b", .undefined)])) "b"
          = getField sampleUnsavedB sampleMetaB1.primaryKey) := by
  constructor
  · exact (prepareEntity_unsaved_reference sampleReg1 sampleEntA1d "A" sampleMetaA
      (Value.obj true [("id", .num 7)]) rfl rfl rfl (by decide) rfl).1
      samplePropB (List.mem_cons_of_mem _ (List.mem_cons_self _ _)) sampleMetaB1
      rfl rfl rfl
  · exact (prepareEntity_unsaved_reference sampleReg1 sampleEntA1 "A" sampleMetaA
      (Value.obj true [("id", .num 7), ("b", .undefined)]) rfl rfl rfl (by decide) rfl).2
      samplePropB (List.mem_cons_of_mem _ (List.mem_cons_self _ _)) sampleUnsavedB
      sampleMetaB1 rfl rfl rfl

/-- C6 (amended): `extractPK` returns primary-key-shaped input (string,
number, ObjectId-like) as-is; on an object with non-composite metadata it
returns the raw `primaryKey` field when that value is truthy, otherwise
falls back to the `serializedPrimaryKey` field when that value is truthy
(so the fallback fires on any falsy raw value — absent, `undefined`,
`null`, `0`, `""`, `false` — not only an absent one), otherwise `null`;
and on non-key-shaped non-entity input with no metadata it returns `null`
rather than failing. -/
theorem extractPK_characterization (reg : MetadataStorage) :
    (∀ (data : Value) (m0 : Option EntityMetadata), isPrimaryKeyV data = true →
        extractPK reg data m0 = data)
  ∧ (∀ (data : Value) (m : EntityMetadata), isPrimaryKeyV data = false →
        isObjectV data = true → m.compositePK = false →
        extractPK reg data (some m)
          = (if truthy (getField data m.primaryKey) then getField data m.primaryKey
             else if truthy (getField data m.serializedPrimaryKey)
             then getField data m.serializedPrimaryKey else Value.null))
  ∧ (∀ data : Value, isPrimaryKeyV data = false → isEntityV data false = false →
        extractPK reg data none = Value.null) := by
  refine ⟨?_, ?_, ?_⟩
  · intro data m0 h
    simp [extractPK, h]
  · intro data m h1 h2 h3
    simp [extractPK, h1, h2, h3]
  · intro data h1 h2
    simp [extractPK, h1, h2]

/-- Counterexample for C6 as stated: the raw key field is present (value
`0`), yet `extractPK` falls back to the serialized field and returns `5`
instead of the present raw value `0`. -/
theorem extractPK_falsy_fallback_counterexample :
    hasField (Value.obj false [("id", .num 0), ("_id", .num 5)]) "id" = true
  ∧ extractPK [] (Value.obj false [("id", .num 0), ("_id", .num 5)])
      (some { primaryKey := "id", serializedPrimaryKey := "_id" }) = .num 5
  ∧ extractPK [] (Value.obj false [("id", .num 0), ("_id", .num 5)])
      (some { primaryKey := "id", serializedPrimaryKey := "_id" })
      ≠ getField (Value.obj false [("id", .num 0), ("_id", .num 5)]) "id" := by
  refine ⟨rfl, rfl, fun h => ?_⟩
  have h2 : Value.num 5 = Value.num 0 := h
  simp at h2

/-- Witness for C6 (amended) at concrete inputs for all three branches. -/
theorem extractPK_characterization_witness :
    (isPrimaryKeyV (Value.num 3) = true ∧ extractPK [] (Value.num 3) none = Value.num 3)
  ∧ (isPrimaryKeyV (Value.obj false [("id", .num 0), ("_id", .num 5)]) = false
      ∧ isObjectV (Value.obj false [("id", .num 0), ("_id", .num 5)]) = true
      ∧ EntityMetadata.compositePK { primaryKey := "id", serializedPrimaryKey := "_id" } = false
      ∧ extractPK [] (Value.obj false [("id", .num 0), ("_id", .num 5)])
          (some { primaryKey := "id", serializedPrimaryKey := "_id" })
        = (if truthy (getField (Value.obj false [("id", .num 0), ("_id", .num 5)])
              (EntityMetadata.primaryKey { primaryKey := "id", serializedPrimaryKey := "_id" }))
           then getField (Value.obj false [("id", .num 0), ("_id", .num 5)])
              (EntityMetadata.primaryKey { primaryKey := "id", serializedPrimaryKey := "_id" })
           else if truthy (getField (Value.obj false [("id", .num 0), ("_id", .num 5)])
              (EntityMetadata.serializedPrimaryKey
                { primaryKey := "id", serializedPrimaryKey := "_id" }))
           then getField (Value.obj false [("id", .num 0), ("_id", .num 5)])
              (EntityMetadata.serializedPrimaryKey
                { primaryKey := "id", serializedPrimaryKey := "_id" })
           else Value.null))
  ∧ (isPrimaryKeyV (Value.bool true) = false ∧ isEntityV (Value.bool true) false = false
      ∧ extractPK [] (Value.bool true) none = Value.null) :=
  ⟨⟨rfl, (extractPK_characterization []).1 (Value.num 3) none rfl⟩,
   ⟨rfl, rfl, rfl,
    (extractPK_characterization []).2.1 (Value.obj false [("id", .num 0), ("_id", .num 5)])
      { primaryKey := "id", serializedPrimaryKey := "_id" } rfl rfl rfl⟩,
   ⟨rfl, rfl, (extractPK_characterization []).2.2 (Value.bool true) rfl rfl⟩⟩

end MikroOrm
